import Mathlib

/-!
Shallow embedding of the watermark verification engine of the
Monitor_Detak_Jantung repository, from `src/app.js` (primary receiver) and
`src/unnamed/part_000` (earlier receiver variant, identical core math).

Modelling conventions:
- JavaScript numbers are modelled as exact rationals (`ℚ`); values that the
  code keeps integral (quantization steps, rounded multiples) are `ℤ`/`ℕ`.
- `Math.floor x` is `⌊x⌋`; `Math.round x` is `⌊x + 1/2⌋` (JS rounds exact
  halves toward positive infinity, unlike round-half-away).
- Watermark bit characters '1'/'0' are modelled as `true`/`false`.
- The js-sha256 CDN library (not part of the repository) returns the digest
  as a 64-character lowercase hex string; a hash is modelled as a function
  `String → List ℕ` giving the sequence of the 64 hex-digit VALUES (char '0'
  to 'f' mapped to 0..15, a bijection: `parseInt` of two adjacent digits is
  exactly 16 * d₀ + d₁).  The definitions below stay parametric in the hash;
  `sha256` is an executable SHA-256 (FIPS 180-4) over the ASCII bytes of the
  string, instantiating that parameter for concrete computations (all inputs
  built by the code are pure ASCII).
- `haarDWT` on an odd-length block throws in JS (`new Float64Array(half)`
  with fractional `half` raises a RangeError); this is modelled by `Option`.
-/

namespace Monitor

/-- Configuration object CFG of src/app.js (watermark-relevant fields). -/
def CFG_SECRET_KEY : String := "RahasiaPolban"

/-- CFG.FAKE_KEY, the wrong key used by the ATTACK_KEY scenario. -/
def CFG_FAKE_KEY : String := "INIKUNCIPALSU"

/-- CFG.QIM_DELTA = 2.0, the QIM quantization step. -/
def CFG_QIM_DELTA : ℚ := 2

/-- CFG.BER_THRESHOLD = 30.0 (percent). -/
def CFG_BER_THRESHOLD : ℚ := 30

/-- CFG.MAX_BPM_REF = 200.0, reference amplitude for PSNR. -/
def CFG_MAX_BPM_REF : ℚ := 200

/-- The code's constant INV_SQRT2 = 0.70710678118 (a rational literal in the
source, not the exact irrational 1/√2). -/
def INV_SQRT2 : ℚ := 70710678118 / 100000000000

/-- JavaScript Math.floor on a real value. -/
def jsFloor (q : ℚ) : ℤ := ⌊q⌋

/-- JavaScript Math.round: rounds half toward positive infinity, which is
floor(x + 1/2) for every x. -/
def jsRound (q : ℚ) : ℤ := ⌊q + 1/2⌋

/-- haarDWT (src/app.js lines 169-179): half = data.length / 2 (exact JS
division; `new Float64Array(half)` throws a RangeError when half is
fractional, i.e. when the length is odd, modelled by `none`); otherwise
cA[i] = (data[2i] + data[2i+1]) * INV_SQRT2 and
cD[i] = (data[2i] - data[2i+1]) * INV_SQRT2 for i < half. -/
def haarDWT (data : List ℚ) : Option (List ℚ × List ℚ) :=
  if data.length % 2 = 0 then
    some ((List.range (data.length / 2)).map fun i =>
            (data.getD (2 * i) 0 + data.getD (2 * i + 1) 0) * INV_SQRT2,
          (List.range (data.length / 2)).map fun i =>
            (data.getD (2 * i) 0 - data.getD (2 * i + 1) 0) * INV_SQRT2)
  else none

/-- A loop that appends the chunk g 0, then g 1, ..., then g (k-1) to a
growing accumulator, as the JS `for` loops building `output` (haarIDWT) and
`bits` (getExpectedBits) by repeated push/concatenation do. -/
def appendLoop {α : Type} (g : ℕ → List α) : ℕ → List α
  | 0 => []
  | k + 1 => appendLoop g k ++ g k

/-- haarIDWT (src/app.js lines 193-201): for i < cA.length push
(cA[i] + cD[i]) * INV_SQRT2 then (cA[i] - cD[i]) * INV_SQRT2. -/
def haarIDWT (cA cD : List ℚ) : List ℚ :=
  appendLoop (fun i =>
    [(cA.getD i 0 + cD.getD i 0) * INV_SQRT2,
     (cA.getD i 0 - cD.getD i 0) * INV_SQRT2]) cA.length

/-- robustRound (src/app.js lines 216-218): Math.floor(n / 5.0 + 0.5) * 5.
The result is always an integer multiple of 5, modelled in ℤ. -/
def robustRound (n : ℚ) : ℤ := ⌊n / 5 + 1/2⌋ * 5

/-- extractQIMBit (src/app.js lines 231-234, and inlined in verifyWatermark
lines 367-374): rounded = Math.round(val / delta); '1' if rounded is odd
else '0'.  The JS test `rounded % 2 !== 0` (truncated remainder) holds
exactly when the Euclidean remainder `rounded % 2` is nonzero.  The source
reads delta from CFG.QIM_DELTA; it is a parameter here. -/
def extractQIMBit (delta val : ℚ) : Bool :=
  if jsRound (val / delta) % 2 ≠ 0 then true else false

/-- Body of the embedding loop of embedQIMAttack (src/app.js lines 290-302):
step = Math.floor(val / delta); if Math.abs(step % 2) !== bit then step++;
result = step * delta.  JS `Math.abs(step % 2)` (truncated remainder, then
absolute value) equals `(step % 2).natAbs` with the Euclidean remainder,
both being the parity of |step|.  bit is the ℕ value of parseInt('0'|'1'). -/
def embedQIMBit (delta val : ℚ) (bit : ℕ) : ℚ :=
  let step := jsFloor (val / delta)
  let step2 := if (step % 2).natAbs ≠ bit then step + 1 else step
  (step2 : ℚ) * delta

/-- embedQIMAttack (src/app.js lines 290-302): embeds watermarkBits into the
detail coefficients, cycling the bitstring (index i % watermarkBits.length).
The source reads delta from CFG.QIM_DELTA; it is a parameter here. -/
def embedQIMAttack (delta : ℚ) (cD : List ℚ) (watermarkBits : List ℕ) : List ℚ :=
  cD.mapIdx fun i val => embedQIMBit delta val (watermarkBits.getD (i % watermarkBits.length) 0)

/-- Conversion of one hash byte (value < 256) to its 8 bits, most significant
first: parseInt(hexPair, 16).toString(2).padStart(8, '0') in the source. -/
def toBin8 (b : ℕ) : List Bool := (List.range 8).map fun k => b / 2 ^ (7 - k) % 2 == 1

/-- getExpectedBits (src/app.js lines 251-275): concatenate the decimal
strings of robustRound(cA[i]), append the key and the decimal string of seq,
hash, then take the first numBits bits of the digest, built byte by byte
(bytesNeeded = Math.ceil(numBits / 8) bytes, 8 bits MSB-first per byte,
finally truncated to numBits).  The source also returns the raw input string
and the hex digest, used only for logging; this model returns the bits.
The source defaults key to CFG.SECRET_KEY when absent; every caller in the
verification path passes it explicitly. -/
def getExpectedBits (hash : String → List ℕ) (cA : List ℚ) (seq : ℕ)
    (numBits : ℕ) (key : String) : List Bool :=
  let s := String.join (cA.map fun x => toString (robustRound x))
  let raw := s ++ key ++ toString seq
  let hex := hash raw
  let bytesNeeded := (numBits + 7) / 8
  let bits := appendLoop
    (fun i => toBin8 (16 * hex.getD (2 * i) 0 + hex.getD (2 * i + 1) 0)) bytesNeeded
  bits.take numBits

/-- The MSE computation of verifyWatermark (src/app.js lines 338-340):
mseSum = sum of (received[i] - processed[i])^2 over i < received.length,
mse = mseSum / received.length. -/
def mseOf (received processed : List ℚ) : ℚ :=
  (((List.range received.length).map fun i =>
      (received.getD i 0 - processed.getD i 0) ^ 2).sum) / (received.length : ℚ)

/-- Result record of verifyWatermark.  The source returns
{status, ber, mse, psnr, log}; log is UI text, psnr is modelled separately
by `psnrOf` (it needs real logarithms), and the local variables errors,
expected and extracted of the source are exposed as fields so that theorems
can speak about them. -/
structure VerifyResult where
  status : String
  ber : ℚ
  mse : ℚ
  errors : ℕ
  expected : List Bool
  extracted : List Bool
deriving DecidableEq

/-- Body of verifyWatermark after the Haar decomposition (src/app.js lines
354-397): expected bits from cA with the secret (CFG.FAKE_KEY in mode
ATTACK_KEY, CFG.SECRET_KEY otherwise) and seq over numBits = cD.length bits,
QIM extraction from cD (the loop at lines 366-374 inlines the formula of
extractQIMBit), error count over the first numBits positions (JS string
indexing, possibly out of range, modelled by optional indexing),
ber = (errors / numBits) * 100, status VALID iff ber <= CFG.BER_THRESHOLD. -/
def verifyCore (hash : String → List ℕ) (received processed : List ℚ)
    (seq : ℕ) (mode : String) (cA cD : List ℚ) : VerifyResult :=
  let kunci := if mode = "ATTACK_KEY" then CFG_FAKE_KEY else CFG_SECRET_KEY
  let numBits := cD.length
  let expected := getExpectedBits hash cA seq numBits kunci
  let extracted := cD.map fun val => extractQIMBit CFG_QIM_DELTA val
  let errors := (List.range numBits).countP fun i => extracted[i]? != expected[i]?
  let ber := ((errors : ℚ) / (numBits : ℚ)) * 100
  { status := if ber ≤ CFG_BER_THRESHOLD then "VALID" else "INVALID",
    ber := ber, mse := mseOf received processed, errors := errors,
    expected := expected, extracted := extracted }

/-- verifyWatermark (src/app.js lines 326-398): MSE and PSNR (PSNR via
`psnrOf` below), Haar decomposition of processed, then the comparison
pipeline of `verifyCore`.  An odd-length processed block makes haarDWT
throw, modelled by `none`. -/
def verifyWatermark (hash : String → List ℕ) (received processed : List ℚ)
    (seq : ℕ) (mode : String) : Option VerifyResult :=
  match haarDWT processed with
  | none => none
  | some (cA, cD) => some (verifyCore hash received processed seq mode cA cD)

/-- The PSNR computation of verifyWatermark (src/app.js line 341):
psnr = 100.0 if mse === 0, else 20 * log10(CFG.MAX_BPM_REF / sqrt(mse)). -/
noncomputable def psnrOf (mse : ℚ) : ℝ :=
  if mse = 0 then 100
  else 20 * Real.logb 10 ((CFG_MAX_BPM_REF : ℝ) / Real.sqrt (mse : ℝ))

/-- gaussianRandom (src/app.js line 840, final line): mean + z * sigma, where
z is a standard normal draw produced by a Box-Muller transform from
Math.random(); the draw is a parameter here. -/
def gaussianRandom (z mean sigma : ℚ) : ℚ := mean + z * sigma

/-- The awgnSigma lookup table of applyAttack (src/app.js lines 861-866):
sigma for the four AWGN modes, undefined (none) otherwise. -/
def awgnSigma (mode : String) : Option ℚ :=
  if mode = "AWGN_RINGAN" then some (3/10)
  else if mode = "AWGN_SEDANG" then some (6/10)
  else if mode = "AWGN_KRITIS" then some (9/10)
  else if mode = "AWGN_HANCUR" then some (12/10)
  else none

/-- applyAttack (src/app.js lines 859-884): AWGN modes add gaussian noise per
element (z i is the i-th standard normal draw), ATTACK_BPM adds 30.0 to every
element, ATTACK_KEY and every other mode (including NORMAL and unrecognized
strings) return a fresh copy [...data] of the input; map and the spread
operator never mutate the input array. -/
def applyAttack (z : ℕ → ℚ) (data : List ℚ) (mode : String) : List ℚ :=
  match awgnSigma mode with
  | some sigma => data.mapIdx fun i x => x + gaussianRandom (z i) 0 sigma
  | none =>
    if mode = "ATTACK_BPM" then data.map fun x => x + 30
    else if mode = "ATTACK_KEY" then data
    else data

/-- applyAttack of the variant receiver (src/unnamed/part_000 lines 429-436):
NOISE adds +0.4 to even indices and -0.4 to odd ones, ATTACK adds 30.0, any
other mode returns a fresh copy of the input. -/
def applyAttackV2 (data : List ℚ) (mode : String) : List ℚ :=
  if mode = "NOISE" then data.mapIdx fun i x => if i % 2 = 0 then x + 4/10 else x - 4/10
  else if mode = "ATTACK" then data.map fun x => x + 30
  else data

/-! SHA-256 (FIPS 180-4), executable model of the js-sha256 library used by
the source.  Bitwise operations are written with fuel recursion over plain
division and remainder so that the kernel can evaluate them. -/

/-- Word modulus 2^32. -/
def UMOD : ℕ := 4294967296

/-- Bitwise xor of the low `fuel` bits. -/
def xorAux : ℕ → ℕ → ℕ → ℕ
  | 0, _, _ => 0
  | f + 1, a, b => (a % 2 + b % 2) % 2 + 2 * xorAux f (a / 2) (b / 2)

/-- Bitwise and of the low `fuel` bits. -/
def andAux : ℕ → ℕ → ℕ → ℕ
  | 0, _, _ => 0
  | f + 1, a, b => a % 2 * (b % 2) + 2 * andAux f (a / 2) (b / 2)

/-- 32-bit xor. -/
def xor32 (a b : ℕ) : ℕ := xorAux 32 a b

/-- 32-bit and. -/
def and32 (a b : ℕ) : ℕ := andAux 32 a b

/-- 32-bit complement. -/
def not32 (a : ℕ) : ℕ := 4294967295 - a % UMOD

/-- Rotate a 32-bit word right by n. -/
def rotr32 (n a : ℕ) : ℕ := a / 2 ^ n + a % 2 ^ n * 2 ^ (32 - n)

/-- Logical shift right by n. -/
def shr32 (n a : ℕ) : ℕ := a / 2 ^ n

/-- SHA-256 Sigma0. -/
def bigSigma0 (x : ℕ) : ℕ := xor32 (rotr32 2 x) (xor32 (rotr32 13 x) (rotr32 22 x))

/-- SHA-256 Sigma1. -/
def bigSigma1 (x : ℕ) : ℕ := xor32 (rotr32 6 x) (xor32 (rotr32 11 x) (rotr32 25 x))

/-- SHA-256 sigma0. -/
def smallSigma0 (x : ℕ) : ℕ := xor32 (rotr32 7 x) (xor32 (rotr32 18 x) (shr32 3 x))

/-- SHA-256 sigma1. -/
def smallSigma1 (x : ℕ) : ℕ := xor32 (rotr32 17 x) (xor32 (rotr32 19 x) (shr32 10 x))

/-- SHA-256 choice function. -/
def chf (e f g : ℕ) : ℕ := xor32 (and32 e f) (and32 (not32 e) g)

/-- SHA-256 majority function. -/
def majf (a b c : ℕ) : ℕ := xor32 (and32 a b) (xor32 (and32 a c) (and32 b c))

/-- SHA-256 round constants (decimal values of the FIPS 180-4 table). -/
def shaK : List ℕ :=
  [1116352408, 1899447441, 3049323471, 3921009573, 961987163, 1508970993,
   2453635748, 2870763221, 3624381080, 310598401, 607225278, 1426881987,
   1925078388, 2162078206, 2614888103, 3248222580, 3835390401, 4022224774,
   264347078, 604807628, 770255983, 1249150122, 1555081692, 1996064986,
   2554220882, 2821834349, 2952996808, 3210313671, 3336571891, 3584528711,
   113926993, 338241895, 666307205, 773529912, 1294757372, 1396182291,
   1695183700, 1986661051, 2177026350, 2456956037, 2730485921, 2820302411,
   3259730800, 3345764771, 3516065817, 3600352804, 4094571909, 275423344,
   430227734, 506948616, 659060556, 883997877, 958139571, 1322822218,
   1537002063, 1747873779, 1955562222, 2024104815, 2227730452, 2361852424,
   2428436474, 2756734187, 3204031479, 3329325298]

/-- SHA-256 initial hash value (decimal values of the FIPS 180-4 table). -/
def shaH0 : List ℕ :=
  [1779033703, 3144134277, 1013904242, 2773480762,
   1359893119, 2600822924, 528734635, 1541459225]

/-- Extend the 16 message-schedule words to 64 (fuel = 48 extensions). -/
def scheduleAux : ℕ → List ℕ → List ℕ
  | 0, w => w
  | f + 1, w =>
    scheduleAux f (w ++ [(smallSigma1 (w.getD (w.length - 2) 0) + w.getD (w.length - 7) 0
      + smallSigma0 (w.getD (w.length - 15) 0) + w.getD (w.length - 16) 0) % UMOD])

/-- One SHA-256 compression round on the 8-word working state. -/
def compressRound (st : List ℕ) (kw : ℕ × ℕ) : List ℕ :=
  let a := st.getD 0 0
  let b := st.getD 1 0
  let c := st.getD 2 0
  let d := st.getD 3 0
  let e := st.getD 4 0
  let f := st.getD 5 0
  let g := st.getD 6 0
  let h := st.getD 7 0
  let t1 := (h + bigSigma1 e + chf e f g + kw.1 + kw.2) % UMOD
  let t2 := (bigSigma0 a + majf a b c) % UMOD
  [(t1 + t2) % UMOD, a, b, c, (d + t1) % UMOD, e, f, g]

/-- Compress one 16-word block into the hash state. -/
def processBlock (h : List ℕ) (block : List ℕ) : List ℕ :=
  let w := scheduleAux 48 block
  let st := (shaK.zip w).foldl compressRound h
  (h.zip st).map fun p => (p.1 + p.2) % UMOD

/-- Big-endian packing of bytes into 32-bit words. -/
def bytesToWords : List ℕ → List ℕ
  | b0 :: b1 :: b2 :: b3 :: rest =>
    (((b0 * 256 + b1) * 256 + b2) * 256 + b3) :: bytesToWords rest
  | _ => []

/-- The 8-byte big-endian encoding of the bit length. -/
def lengthBytes (n : ℕ) : List ℕ := (List.range 8).map fun i => n / 2 ^ (8 * (7 - i)) % 256

/-- SHA-256 padding: 0x80, zeros to 56 mod 64, then the 64-bit bit length. -/
def padBytes (msg : List ℕ) : List ℕ :=
  msg ++ [128] ++ List.replicate ((64 - (msg.length + 9) % 64) % 64) 0 ++ lengthBytes (8 * msg.length)

/-- Iterate processBlock over the word list, 16 words per block. -/
def processAux : ℕ → List ℕ → List ℕ → List ℕ
  | 0, h, _ => h
  | f + 1, h, words => processAux f (processBlock h (words.take 16)) (words.drop 16)

/-- The 8 hex-digit values of a 32-bit word, most significant first. -/
def wordToHex (w : ℕ) : List ℕ := (List.range 8).map fun i => w / 16 ^ (7 - i) % 16

/-- SHA-256 of the ASCII bytes of a string, as the 64 hex-digit values of the
digest: the model of the js-sha256 function `sha256` used by the source
(validated below against the FIPS 180-4 test vector for "abc"). -/
def sha256 (s : String) : List ℕ :=
  let msg := s.data.map Char.toNat
  let words := bytesToWords (padBytes msg)
  ((processAux (words.length / 16) shaH0 words).map wordToHex).flatten

/-- Byte values of a hex-digit-value sequence, pairing digits as the source's
parseInt(hex.substring(2i, 2i+2), 16) does. -/
def hexToBytes (hex : List ℕ) : List ℕ :=
  (List.range (hex.length / 2)).map fun i => 16 * hex.getD (2 * i) 0 + hex.getD (2 * i + 1) 0

/-- Stated from the spec, for comparison with getExpectedBits: the stream of
all digest bits, most significant bit first within each byte. -/
def hashBits (hex : List ℕ) : List Bool := ((hexToBytes hex).map toBin8).flatten

/-- A degenerate hash model (all hex digits 0), used to instantiate
hash-parametric theorems at concrete inputs. -/
def zeroHash : String → List ℕ := fun _ => List.replicate 64 0

/-- A degenerate hash model (all hex digits 1). -/
def constHash1 : String → List ℕ := fun _ => List.replicate 64 1

/-- The concrete scenario block of 16 samples of 75.0 BPM. -/
def block75 : List ℚ := List.replicate 16 75

/-! Helper lemmas. -/

lemma getD_map_range {α : Type} (d : α) (f : ℕ → α) {n i : ℕ} (h : i < n) :
    ((List.range n).map f).getD i d = f i := by
  simp [List.getD, List.getElem?_map, List.getElem?_range, h]

lemma toBin8_length (b : ℕ) : (toBin8 b).length = 8 := by simp [toBin8]

lemma appendLoop_length {α : Type} (g : ℕ → List α) (c : ℕ)
    (hg : ∀ i, (g i).length = c) : ∀ k, (appendLoop g k).length = c * k := by
  intro k
  induction k with
  | zero => simp [appendLoop]
  | succ k ih => simp [appendLoop, ih, hg, Nat.mul_succ]

lemma appendLoop_split {α : Type} (g : ℕ → List α) :
    ∀ m k, k ≤ m → ∃ t, appendLoop g m = appendLoop g k ++ t := by
  intro m
  induction m with
  | zero =>
    intro k h
    have hk : k = 0 := Nat.le_zero.mp h
    subst hk
    exact ⟨[], rfl⟩
  | succ m ih =>
    intro k h
    rcases Nat.lt_or_ge k (m + 1) with hlt | hge
    · obtain ⟨t, ht⟩ := ih k (Nat.lt_succ_iff.mp hlt)
      exact ⟨t ++ g m, by simp [appendLoop, ht]⟩
    · have hk : k = m + 1 := Nat.le_antisymm h hge
      subst hk
      exact ⟨[], by simp⟩

lemma flatten_map_range {α : Type} (g : ℕ → List α) :
    ∀ k, ((List.range k).map g).flatten = appendLoop g k := by
  intro k
  induction k with
  | zero => simp [appendLoop]
  | succ k ih => rw [List.range_succ]; simp [appendLoop, ih]

lemma appendLoop_pair {α : Type} (u v : ℕ → α) :
    ∀ k, appendLoop (fun i => [u i, v i]) k
      = (List.range (2 * k)).map (fun j => if j % 2 = 0 then u (j / 2) else v (j / 2)) := by
  intro k
  induction k with
  | zero => simp [appendLoop]
  | succ k ih =>
    have h2 : 2 * (k + 1) = (2 * k + 1) + 1 := by omega
    have e1 : (2 * k) % 2 = 0 := by omega
    have e2 : (2 * k) / 2 = k := by omega
    have e3 : (2 * k + 1) % 2 = 1 := by omega
    have e4 : (2 * k + 1) / 2 = k := by omega
    rw [show appendLoop (fun i => [u i, v i]) (k + 1)
          = appendLoop (fun i => [u i, v i]) k ++ [u k, v k] from rfl,
        ih, h2, List.range_succ, List.range_succ]
    simp [e1, e2, e3, e4]

lemma getExpectedBits_length (hash : String → List ℕ) (cA : List ℚ)
    (seq numBits : ℕ) (key : String) :
    (getExpectedBits hash cA seq numBits key).length = numBits := by
  unfold getExpectedBits
  rw [List.length_take, appendLoop_length _ 8 (fun i => toBin8_length _)]
  omega

lemma haarDWT_eq_some {data cA cD : List ℚ} (h : haarDWT data = some (cA, cD)) :
    data.length % 2 = 0 ∧
    cA = (List.range (data.length / 2)).map
        (fun i => (data.getD (2 * i) 0 + data.getD (2 * i + 1) 0) * INV_SQRT2) ∧
    cD = (List.range (data.length / 2)).map
        (fun i => (data.getD (2 * i) 0 - data.getD (2 * i + 1) 0) * INV_SQRT2) := by
  unfold haarDWT at h
  split at h
  next heven =>
    simp only [Option.some.injEq, Prod.mk.injEq] at h
    exact ⟨heven, h.1.symm, h.2.symm⟩
  next hodd => simp at h

lemma verifyWatermark_eq (hash : String → List ℕ) (received processed : List ℚ)
    (seq : ℕ) (mode : String) (cA cD : List ℚ)
    (hdwt : haarDWT processed = some (cA, cD)) :
    verifyWatermark hash received processed seq mode
      = some (verifyCore hash received processed seq mode cA cD) := by
  unfold verifyWatermark
  rw [hdwt]

lemma verifyWatermark_none (hash : String → List ℕ) (received processed : List ℚ)
    (seq : ℕ) (mode : String) (hdwt : haarDWT processed = none) :
    verifyWatermark hash received processed seq mode = none := by
  unfold verifyWatermark
  rw [hdwt]

lemma countP_mismatch_zip (l1 : List Bool) : ∀ (l2 : List Bool), l1.length = l2.length →
    ((List.range l1.length).countP fun i => l1[i]? != l2[i]?) =
      (l2.zip l1).countP fun p => decide (p.1 ≠ p.2) := by
  induction l1 with
  | nil =>
    intro l2 h
    cases l2 with
    | nil => simp
    | cons b t2 => simp at h
  | cons a t1 ih =>
    intro l2 h
    cases l2 with
    | nil => simp at h
    | cons b t2 =>
      have hlen : t1.length = t2.length := by simpa using h
      have hhead : ((a :: t1)[0]? != (b :: t2)[0]?) = decide (b ≠ a) := by
        cases a <;> cases b <;> simp
      rw [List.length_cons, List.range_succ_eq_map, List.countP_cons, List.countP_map,
          List.zip_cons_cons, List.countP_cons]
      simp only [Function.comp_def, List.getElem?_cons_succ, hhead]
      rw [ih t2 hlen]

/-! Claim theorems. -/

/-- C8: robustRound with step 5 is idempotent: applying robustRound to the
result of robustRound(x) yields the same value as robustRound(x). -/
theorem robustRound_idempotent (x : ℚ) :
    robustRound ((robustRound x : ℤ) : ℚ) = robustRound x := by
  unfold robustRound
  set k := ⌊x / 5 + 1/2⌋ with hk
  have h5 : ((k * 5 : ℤ) : ℚ) / 5 = (k : ℚ) := by
    push_cast
    exact mul_div_cancel_right₀ _ (by norm_num)
  rw [h5, Int.floor_int_add]
  norm_num

/-- C9 (corrected claim, counterexample): contrary to the claim that haarDWT
fails for every block of zero length, the code performs no length check at
all and a zero-length block succeeds, returning empty coefficient arrays. -/
theorem haarDWT_empty_succeeds_cex : haarDWT ([] : List ℚ) = some ([], []) := rfl

/-- C9 (amended): haarDWT fails (a generic runtime RangeError from the
fractional typed-array length, not a named InvalidBlockLength error) exactly
on blocks of odd length; every even-length block, including the empty one,
succeeds.  The function is pure, so no engine state can be corrupted. -/
theorem haarDWT_none_iff_odd (data : List ℚ) :
    haarDWT data = none ↔ data.length % 2 = 1 := by
  unfold haarDWT
  split
  next heven => exact iff_of_false (by simp) (by omega)
  next hodd => exact iff_of_true rfl (by omega)

/-- C3: on every block of even non-zero length N, the forward Haar transform
returns trend and detail sequences of length N/2 with
trend[i] = (block[2i] + block[2i+1]) * c and
detail[i] = (block[2i] - block[2i+1]) * c for every i < N/2, where c is the
code's constant INV_SQRT2 = 0.70710678118. -/
theorem haarDWT_even_spec (data cA cD : List ℚ)
    (heven : data.length % 2 = 0) (hne : data ≠ [])
    (h : haarDWT data = some (cA, cD)) :
    cA.length = data.length / 2 ∧ cD.length = data.length / 2 ∧
    ∀ i, i < data.length / 2 →
      cA.getD i 0 = (data.getD (2 * i) 0 + data.getD (2 * i + 1) 0) * INV_SQRT2 ∧
      cD.getD i 0 = (data.getD (2 * i) 0 - data.getD (2 * i + 1) 0) * INV_SQRT2 := by
  obtain ⟨-, hA, hD⟩ := haarDWT_eq_some h
  subst hA
  subst hD
  exact ⟨by simp, by simp, fun i hi => ⟨getD_map_range 0 _ hi, getD_map_range 0 _ hi⟩⟩

/-- Witness for C3 at the concrete even-length block [3, 1]. -/
theorem haarDWT_even_spec_witness :
    ([(3 + 1) * INV_SQRT2] : List ℚ).length = ([3, 1] : List ℚ).length / 2 ∧
    ([(3 - 1) * INV_SQRT2] : List ℚ).length = ([3, 1] : List ℚ).length / 2 ∧
    ∀ i, i < ([3, 1] : List ℚ).length / 2 →
      ([(3 + 1) * INV_SQRT2] : List ℚ).getD i 0
        = (([3, 1] : List ℚ).getD (2 * i) 0 + ([3, 1] : List ℚ).getD (2 * i + 1) 0) * INV_SQRT2 ∧
      ([(3 - 1) * INV_SQRT2] : List ℚ).getD i 0
        = (([3, 1] : List ℚ).getD (2 * i) 0 - ([3, 1] : List ℚ).getD (2 * i + 1) 0) * INV_SQRT2 :=
  haarDWT_even_spec [3, 1] [(3 + 1) * INV_SQRT2] [(3 - 1) * INV_SQRT2]
    (by decide) (by decide) (by decide!)

/-- C4: for every real coefficient x, every delta > 0 and every bit
b in {0, 1}, extracting a bit from the coefficient produced by embedding b
into x yields b again (QIM embed/extract round trip). -/
theorem qim_embed_extract_roundtrip (x delta : ℚ) (b : ℕ)
    (hdelta : 0 < delta) (hb : b = 0 ∨ b = 1) :
    extractQIMBit delta (embedQIMBit delta x b) = (b == 1) := by
  simp only [embedQIMBit, extractQIMBit, jsFloor, jsRound]
  set s := ⌊x / delta⌋ with hs
  set s2 := (if (s % 2).natAbs ≠ b then s + 1 else s) with hs2
  have hcancel : ((s2 : ℚ) * delta) / delta = (s2 : ℚ) :=
    mul_div_cancel_right₀ _ (ne_of_gt hdelta)
  rw [hcancel]
  have hfloor : ⌊(s2 : ℚ) + 1/2⌋ = s2 := by
    rw [Int.floor_int_add]
    norm_num
  rw [hfloor]
  have hpar : (s2 % 2).natAbs = b := by
    rw [hs2]
    split <;> omega
  rcases hb with rfl | rfl
  · have h0 : s2 % 2 = 0 := by omega
    simp [h0]
  · have h1 : s2 % 2 ≠ 0 := by omega
    simp [h1]

/-- Witness for C4 at x = 7/3, delta = 2, b = 1. -/
theorem qim_embed_extract_roundtrip_witness :
    (0 : ℚ) < 2 ∧ extractQIMBit 2 (embedQIMBit 2 (7/3) 1) = (1 == 1) :=
  ⟨by norm_num, qim_embed_extract_roundtrip (7/3) 2 1 (by norm_num) (Or.inr rfl)⟩

lemma mseOf_self (l : List ℚ) : mseOf l l = 0 := by
  have hz : ((List.range l.length).map fun i =>
      (l.getD i 0 - l.getD i 0) ^ 2).sum = 0 := by
    apply List.sum_eq_zero
    intro x hx
    simp only [List.mem_map] at hx
    obtain ⟨i, -, rfl⟩ := hx
    ring
  unfold mseOf
  rw [hz, zero_div]

lemma status_iff (q : ℚ) :
    (if q ≤ CFG_BER_THRESHOLD then "VALID" else "INVALID") = "VALID"
      ↔ q ≤ CFG_BER_THRESHOLD := by
  split
  next hb => exact iff_of_true rfl hb
  next hb => exact iff_of_false (by decide) hb

/-- C1: whenever a verification call returns a result, the error count is
the number of positions where the expected and extracted watermark
bitstrings differ, ber = 100 * errors / detail.length (with
detail.length = N/2 for the N-sample processed block), and the status is
VALID exactly when ber <= CFG.BER_THRESHOLD (so also when ber equals the
threshold) and INVALID otherwise. -/
theorem verify_errors_ber_status (hash : String → List ℕ)
    (received processed : List ℚ) (seq : ℕ) (mode : String) (res : VerifyResult)
    (hne : processed ≠ [])
    (h : verifyWatermark hash received processed seq mode = some res) :
    res.errors = (res.expected.zip res.extracted).countP (fun p => decide (p.1 ≠ p.2)) ∧
    res.ber = 100 * (res.errors : ℚ) / ((processed.length / 2 : ℕ) : ℚ) ∧
    (res.status = "VALID" ↔ res.ber ≤ CFG_BER_THRESHOLD) := by
  cases hdwt : haarDWT processed with
  | none =>
    rw [verifyWatermark_none hash received processed seq mode hdwt] at h
    exact Option.noConfusion h
  | some p =>
    obtain ⟨cA, cD⟩ := p
    rw [verifyWatermark_eq hash received processed seq mode cA cD hdwt] at h
    injection h with h
    subst h
    obtain ⟨heven, -, hD⟩ := haarDWT_eq_some hdwt
    have hcd : cD.length = processed.length / 2 := by rw [hD]; simp
    refine ⟨?_, ?_, ?_⟩
    · simp only [verifyCore]
      have key := countP_mismatch_zip
        (cD.map fun val => extractQIMBit CFG_QIM_DELTA val)
        (getExpectedBits hash cA seq cD.length
          (if mode = "ATTACK_KEY" then CFG_FAKE_KEY else CFG_SECRET_KEY))
        (by rw [List.length_map, getExpectedBits_length])
      rw [List.length_map] at key
      exact key
    · simp only [verifyCore]
      rw [hcd]
      ring
    · simp only [verifyCore]
      exact status_iff _

/-- Witness for C1: verification of the block [1, 1] against itself with the
degenerate all-zero hash yields the stated relations at the concrete result
record. -/
theorem verify_errors_ber_status_witness :
    (VerifyResult.mk "VALID" 0 0 0 [false] [false]).errors
        = ((VerifyResult.mk "VALID" 0 0 0 [false] [false]).expected.zip
            (VerifyResult.mk "VALID" 0 0 0 [false] [false]).extracted).countP
            (fun p => decide (p.1 ≠ p.2)) ∧
    (VerifyResult.mk "VALID" 0 0 0 [false] [false]).ber
        = 100 * ((VerifyResult.mk "VALID" 0 0 0 [false] [false]).errors : ℚ)
            / ((([1, 1] : List ℚ).length / 2 : ℕ) : ℚ) ∧
    ((VerifyResult.mk "VALID" 0 0 0 [false] [false]).status = "VALID"
      ↔ (VerifyResult.mk "VALID" 0 0 0 [false] [false]).ber ≤ CFG_BER_THRESHOLD) :=
  verify_errors_ber_status zeroHash [1, 1] [1, 1] 0 "NORMAL"
    (VerifyResult.mk "VALID" 0 0 0 [false] [false]) (by decide) (by decide!)

/-- C2: the expected watermark equals the first numBits bits, most
significant bit first within each byte, of the hash digest of the string
formed by concatenating the decimal representations of robustRound(trend[i])
for each i, then the secret, then the decimal representation of the sequence
number; and the generated bitstring length always equals numBits (the call
site in verifyWatermark passes numBits = detail.length), never a fixed
literal. -/
theorem getExpectedBits_spec (hash : String → List ℕ) (cA : List ℚ) (seq : ℕ)
    (numBits : ℕ) (key : String) (hbits : numBits ≤ 256)
    (hlen : (hash (String.join (cA.map fun x => toString (robustRound x))
        ++ key ++ toString seq)).length = 64) :
    getExpectedBits hash cA seq numBits key
      = (hashBits (hash (String.join (cA.map fun x => toString (robustRound x))
          ++ key ++ toString seq))).take numBits ∧
    (getExpectedBits hash cA seq numBits key).length = numBits := by
  refine ⟨?_, getExpectedBits_length hash cA seq numBits key⟩
  simp only [getExpectedBits, hashBits, hexToBytes]
  rw [hlen, show ((64 : ℕ) / 2) = 32 from rfl, List.map_map]
  rw [flatten_map_range]
  simp only [Function.comp_def]
  obtain ⟨t, ht⟩ := appendLoop_split
    (fun i => toBin8 (16 * (hash (String.join (cA.map fun x => toString (robustRound x))
      ++ key ++ toString seq)).getD (2 * i) 0
      + (hash (String.join (cA.map fun x => toString (robustRound x))
      ++ key ++ toString seq)).getD (2 * i + 1) 0))
    32 ((numBits + 7) / 8) (by omega)
  rw [ht, List.take_append_of_le_length]
  rw [appendLoop_length _ 8 (fun i => toBin8_length _)]
  omega

/-- Witness for C2 with the degenerate all-one hash, 8 bits (one byte value
17 = 00010001). -/
theorem getExpectedBits_spec_witness :
    getExpectedBits constHash1 [] 0 8 ""
      = [false, false, false, true, false, false, false, true] ∧
    (getExpectedBits constHash1 [] 0 8 "").length = 8 := by
  have h := getExpectedBits_spec constHash1 [] 0 8 "" (by decide) (by decide)
  exact ⟨h.1.trans (by decide), h.2⟩

/-- C6: whenever the received block equals the processed block element-wise
(and is non-empty), the mean squared error is 0 and the PSNR is exactly the
configured ceiling of 100 dB rather than infinity; for nonzero mse the PSNR
is 20 * log10(CFG.MAX_BPM_REF / sqrt(mse)). -/
theorem psnr_mse_spec (received processed : List ℚ)
    (heq : received = processed) (hne : received ≠ []) :
    mseOf received processed = 0 ∧ psnrOf (mseOf received processed) = 100 ∧
    ∀ m : ℚ, m ≠ 0 →
      psnrOf m = 20 * Real.logb 10 ((CFG_MAX_BPM_REF : ℝ) / Real.sqrt (m : ℝ)) := by
  subst heq
  refine ⟨mseOf_self received, ?_, fun m hm => by simp only [psnrOf]; rw [if_neg hm]⟩
  rw [mseOf_self received]
  simp [psnrOf]

/-- Witness for C6 at the one-sample block [75]. -/
theorem psnr_mse_spec_witness :
    mseOf [75] [75] = 0 ∧ psnrOf (mseOf [75] [75]) = 100 :=
  ⟨(psnr_mse_spec [75] [75] rfl (List.cons_ne_nil _ _)).1,
   (psnr_mse_spec [75] [75] rfl (List.cons_ne_nil _ _)).2.1⟩

/-- C7: applying the inverse Haar transform to the output of the forward
Haar transform reconstructs every even-length block within floating-point
tolerance: the code's INV_SQRT2 constant makes every reconstructed sample
equal 2 * INV_SQRT2 ^ 2 (about 1 - 1.4e-11) times the original, so each
sample is reproduced to within a relative error of 1e-9. -/
theorem haar_roundtrip_tolerance (data cA cD : List ℚ)
    (heven : data.length % 2 = 0)
    (h : haarDWT data = some (cA, cD)) :
    (haarIDWT cA cD).length = data.length ∧
    ∀ j, j < data.length →
      |(haarIDWT cA cD).getD j 0 - data.getD j 0| ≤ |data.getD j 0| / 1000000000 := by
  obtain ⟨-, hA, hD⟩ := haarDWT_eq_some h
  set n := data.length / 2 with hn
  have hlen2 : data.length = 2 * n := by omega
  have hcalen : cA.length = n := by rw [hA]; simp
  have hout : haarIDWT cA cD
      = (List.range (2 * n)).map (fun j => if j % 2 = 0
          then (cA.getD (j / 2) 0 + cD.getD (j / 2) 0) * INV_SQRT2
          else (cA.getD (j / 2) 0 - cD.getD (j / 2) 0) * INV_SQRT2) := by
    rw [haarIDWT, hcalen, appendLoop_pair]
  constructor
  · rw [hout, hlen2]
    simp
  · intro j hj
    have hj2 : j < 2 * n := by omega
    have hjd : j / 2 < n := by omega
    rw [hout, getD_map_range 0 _ hj2]
    have ha : cA.getD (j / 2) 0
        = (data.getD (2 * (j / 2)) 0 + data.getD (2 * (j / 2) + 1) 0) * INV_SQRT2 := by
      rw [hA]
      exact getD_map_range 0 _ hjd
    have hd : cD.getD (j / 2) 0
        = (data.getD (2 * (j / 2)) 0 - data.getD (2 * (j / 2) + 1) 0) * INV_SQRT2 := by
      rw [hD]
      exact getD_map_range 0 _ hjd
    have key : (if j % 2 = 0
          then (cA.getD (j / 2) 0 + cD.getD (j / 2) 0) * INV_SQRT2
          else (cA.getD (j / 2) 0 - cD.getD (j / 2) 0) * INV_SQRT2)
        = 2 * INV_SQRT2 ^ 2 * data.getD j 0 := by
      rcases Nat.mod_two_eq_zero_or_one j with hm | hm
      · have hq : 2 * (j / 2) = j := by omega
        rw [if_pos hm, ha, hd, hq]
        ring
      · have hq : 2 * (j / 2) + 1 = j := by omega
        rw [if_neg (by omega), ha, hd, hq]
        ring
    rw [key, show 2 * INV_SQRT2 ^ 2 * data.getD j 0 - data.getD j 0
          = (2 * INV_SQRT2 ^ 2 - 1) * data.getD j 0 from by ring, abs_mul]
    have hc : |2 * INV_SQRT2 ^ 2 - 1| ≤ (1 : ℚ) / 1000000000 := by decide!
    calc |2 * INV_SQRT2 ^ 2 - 1| * |data.getD j 0|
        ≤ (1 / 1000000000) * |data.getD j 0| :=
          mul_le_mul_of_nonneg_right hc (abs_nonneg _)
      _ = |data.getD j 0| / 1000000000 := by ring

/-- Witness for C7 at the concrete block [1, 1]. -/
theorem haar_roundtrip_tolerance_witness :
    (haarIDWT [(1 + 1) * INV_SQRT2] [(1 - 1) * INV_SQRT2]).length
        = ([1, 1] : List ℚ).length ∧
    ∀ j, j < ([1, 1] : List ℚ).length →
      |(haarIDWT [(1 + 1) * INV_SQRT2] [(1 - 1) * INV_SQRT2]).getD j 0
          - ([1, 1] : List ℚ).getD j 0|
        ≤ |([1, 1] : List ℚ).getD j 0| / 1000000000 :=
  haar_roundtrip_tolerance [1, 1] [(1 + 1) * INV_SQRT2] [(1 - 1) * INV_SQRT2]
    (by decide) (by decide!)

/-- C5 (corrected claim, counterexample): the block of sixteen samples of
75.0, verified against itself with the true secret and sequence number 2,
yields ber = 75 (not 0) and status INVALID: self-verification alone does not
give ber = 0, because the extracted bits come from the detail-coefficient
parities while the expected bits come from the hash. -/
theorem verify_self_cex :
    (verifyWatermark sha256 block75 block75 2 "NORMAL").map
        (fun r => (r.status, r.ber, r.mse)) = some ("INVALID", 75, 0) ∧
    (verifyWatermark sha256 block75 block75 2 "NORMAL").map
        (fun r => (r.ber, r.status)) ≠ some (0, "VALID") := by
  constructor
  · decide!
  · decide!

/-- C5 (amended): verifying a non-empty block against itself always yields
mse = 0, and yields ber = 0 exactly when the expected bits coincide with the
extracted bits (that is, when the block actually carries the watermark for
that secret and sequence number); in that case the status is VALID. -/
theorem verify_self_spec (hash : String → List ℕ) (received processed : List ℚ)
    (seq : ℕ) (mode : String) (res : VerifyResult)
    (heq : received = processed) (hne : received ≠ [])
    (h : verifyWatermark hash received processed seq mode = some res) :
    res.mse = 0 ∧ (res.ber = 0 ↔ res.expected = res.extracted) ∧
    (res.expected = res.extracted → res.status = "VALID") := by
  subst heq
  cases hdwt : haarDWT received with
  | none =>
    rw [verifyWatermark_none hash received received seq mode hdwt] at h
    exact Option.noConfusion h
  | some p =>
    obtain ⟨cA, cD⟩ := p
    rw [verifyWatermark_eq hash received received seq mode cA cD hdwt] at h
    injection h with h
    subst h
    obtain ⟨heven, -, hD⟩ := haarDWT_eq_some hdwt
    have hcd : cD.length = received.length / 2 := by rw [hD]; simp
    have hlen0 : received.length ≠ 0 := fun h0 => hne (List.eq_nil_of_length_eq_zero h0)
    have hnb : cD.length ≠ 0 := by omega
    have hn : ((cD.length : ℚ)) ≠ 0 := Nat.cast_ne_zero.mpr hnb
    simp only [verifyCore]
    set E := getExpectedBits hash cA seq cD.length
      (if mode = "ATTACK_KEY" then CFG_FAKE_KEY else CFG_SECRET_KEY) with hEdef
    set X := cD.map (fun val => extractQIMBit CFG_QIM_DELTA val) with hXdef
    set e := (List.range cD.length).countP (fun i => X[i]? != E[i]?) with hedef
    have hXlen : X.length = cD.length := by rw [hXdef]; simp
    have hElen : E.length = cD.length := by rw [hEdef]; exact getExpectedBits_length _ _ _ _ _
    have herr : e = 0 ↔ E = X := by
      rw [hedef, List.countP_eq_zero]
      constructor
      · intro h0
        apply List.ext_getElem?
        intro i
        by_cases hi : i < cD.length
        · have hx := h0 i (List.mem_range.mpr hi)
          simp only [bne_iff_ne, ne_eq, not_not] at hx
          exact hx.symm
        · rw [List.getElem?_eq_none, List.getElem?_eq_none]
          · omega
          · omega
      · intro hEX i hi
        rw [hEX]
        simp
    have hber : ((e : ℚ) / (cD.length : ℚ)) * 100 = 0 ↔ e = 0 := by
      constructor
      · intro h0
        rcases mul_eq_zero.mp h0 with h1 | h1
        · rcases div_eq_zero_iff.mp h1 with h2 | h2
          · exact_mod_cast h2
          · exact absurd h2 hn
        · norm_num at h1
      · intro h0
        rw [h0]
        norm_num
    refine ⟨mseOf_self received, hber.trans herr, ?_⟩
    intro hEX
    have he0 : e = 0 := herr.mpr hEX
    have hb : ((e : ℚ) / (cD.length : ℚ)) * 100 ≤ CFG_BER_THRESHOLD := by
      rw [he0]
      norm_num [CFG_BER_THRESHOLD]
    rw [if_pos hb]

/-- Witness for the amended C5: the block [0, 0] verified against itself
with the degenerate all-zero hash carries its (all-zero) watermark, and the
result satisfies all three conjuncts. -/
theorem verify_self_spec_witness :
    (VerifyResult.mk "VALID" 0 0 0 [false] [false]).mse = 0 ∧
    ((VerifyResult.mk "VALID" 0 0 0 [false] [false]).ber = 0
      ↔ (VerifyResult.mk "VALID" 0 0 0 [false] [false]).expected
          = (VerifyResult.mk "VALID" 0 0 0 [false] [false]).extracted) ∧
    ((VerifyResult.mk "VALID" 0 0 0 [false] [false]).expected
        = (VerifyResult.mk "VALID" 0 0 0 [false] [false]).extracted →
      (VerifyResult.mk "VALID" 0 0 0 [false] [false]).status = "VALID") :=
  verify_self_spec zeroHash [0, 0] [0, 0] 7 "NORMAL"
    (VerifyResult.mk "VALID" 0 0 0 [false] [false]) rfl
    (List.cons_ne_nil _ _) (by decide!)

/-- C10: for every attack mode (including unrecognized mode strings) and
every input block, applyAttack returns a list of exactly the same length as
the input, and in the NORMAL and ATTACK_KEY modes the returned list is
element-wise equal to the input; likewise for the variant receiver's
applyAttack.  The model is a pure function: the source builds its result
only with map, mapIdx and the spread operator, which allocate a fresh array
and never mutate the input. -/
theorem applyAttack_frame (z : ℕ → ℚ) (data : List ℚ) (mode : String) :
    (applyAttack z data mode).length = data.length ∧
    applyAttack z data "NORMAL" = data ∧
    applyAttack z data "ATTACK_KEY" = data ∧
    (applyAttackV2 data mode).length = data.length ∧
    applyAttackV2 data "NORMAL" = data ∧
    applyAttackV2 data "ATTACK_KEY" = data := by
  refine ⟨?_, ?_, ?_, ?_, ?_, ?_⟩
  · cases hm : awgnSigma mode with
    | some sigma => simp [applyAttack, hm]
    | none =>
      simp only [applyAttack, hm]
      split_ifs <;> simp
  · simp [applyAttack, awgnSigma]
  · simp [applyAttack, awgnSigma]
  · unfold applyAttackV2
    split_ifs <;> simp
  · simp [applyAttackV2]
  · simp [applyAttackV2]

end Monitor
